import Mathlib

/-!
Verification of the data-wrangling and model-evaluation pipeline of
`analysis.py` (Titanic survival prediction).

The pandas `DataFrame` of passenger records is shallowly embedded as a
`List Rec` of records; each wrangling function of `analysis.py` becomes a
pure function on record lists, with in-place column mutation rendered as
returning the updated list.  Missing values (`NaN`) are `Option.none`;
numeric columns are `ℚ`.  Library calls whose semantics the pipeline
relies on (pandas `median`, `mode`, `unique`, `astype('category')`,
`get_dummies`, and the sklearn classifier objects) are embedded by their
documented behaviour: `median` averages the two middle elements of the
sorted values, `mode()[0]` is the most frequent value (ties broken by the
smallest), `astype('category')` sorts the observed levels, `get_dummies`
with `drop_first=True` emits one indicator per level except the first,
and a classifier is a record of `fit`/`predict` functions passed in as a
parameter.
-/

/-! ## Generic list utilities (pandas primitives) -/

/-- Deduplication keeping the first occurrence of each value, as pandas
`Series.unique` does (helper with an accumulator of already-seen values). -/
def uniqAux {α} [DecidableEq α] (seen : List α) : List α → List α
  | [] => []
  | a :: rest => if a ∈ seen then uniqAux seen rest else a :: uniqAux (a :: seen) rest

/-- Deduplication keeping first occurrences: the embedding of
pandas `Series.unique`. -/
def uniq {α} [DecidableEq α] (l : List α) : List α := uniqAux [] l

/-- Insertion into a list sorted according to a boolean strict order `lt`,
placing the new element after existing equal elements (stable). -/
def insertLt {α} (lt : α → α → Bool) (x : α) : List α → List α
  | [] => [x]
  | y :: ys => if lt x y then x :: y :: ys else y :: insertLt lt x ys

/-- Insertion sort by a boolean strict order `lt` (ascending, stable). -/
def sortLt {α} (lt : α → α → Bool) (l : List α) : List α := l.foldr (insertLt lt) []

/-- Strict lexicographic order on character lists, by code point. -/
def lexLt : List Char → List Char → Bool
  | [], [] => false
  | [], _ :: _ => true
  | _ :: _, [] => false
  | a :: as, b :: bs =>
    if a.val < b.val then true else if a.val = b.val then lexLt as bs else false

/-- Strict lexicographic order on strings, by code point. -/
def strLt (a b : String) : Bool := lexLt a.toList b.toList

/-- Rational strict order as a boolean, for sorting numeric columns. -/
def ratLt (a b : ℚ) : Bool := decide (a < b)

/-- Sorted copy of a list of rationals. -/
def sortQ (l : List ℚ) : List ℚ := sortLt ratLt l

/-- Median of a list of rationals, `none` on the empty list: the embedding
of pandas `Series.median` (the middle element of the sorted values for odd
length, the mean of the two middle elements for even length). -/
def medianOpt (l : List ℚ) : Option ℚ :=
  let s := sortQ l
  if s.length = 0 then none
  else if s.length % 2 = 1 then s[s.length / 2]?
  else
    match s[s.length / 2 - 1]?, s[s.length / 2]? with
    | some a, some b => some ((a + b) / 2)
    | _, _ => none

/-- Most frequent value of a list of strings, `none` on the empty list,
ties broken by the lexicographically smallest value: the embedding of
pandas `Series.mode()[0]` (mode returns the tied values sorted; `[0]`
takes the first and raises on an empty series). -/
def modeOpt (l : List String) : Option String :=
  (sortLt strLt (uniq l)).foldl
    (fun best v =>
      match best with
      | none => some v
      | some b => if l.count v > l.count b then some v else best)
    none

/-- Equality test with pandas `NaN` semantics: a missing value compares
unequal to everything, including another missing value. -/
def optEq {α} [DecidableEq α] : Option α → Option α → Bool
  | some a, some b => decide (a = b)
  | _, _ => false

/-! ## The data model

One passenger record; the raw CSV columns of the Titanic dataset plus the
columns the wrangling adds (`Title`, `AgeGroup`, `IsAlone`), which are
absent (`none`) until the corresponding stage runs.  `survived` is present
only in training records. -/

/-- One passenger record of the Titanic dataset. -/
structure Rec where
  passengerId : Nat
  pclass : Nat
  name : String
  sex : String
  age : Option ℚ
  sibsp : Nat
  parch : Nat
  fare : Option ℚ
  embarked : Option String
  survived : Option Nat := none
  title : Option String := none
  ageGroup : Option String := none
  isAlone : Option Nat := none
  deriving DecidableEq, Repr, Inhabited

/-! ## Feature derivation (`add_title`, `add_age_group`, `add_is_alone`) -/

/-- Scanner for the regular expression `([A-Za-z]+)\.` of `add_title`:
walk the characters keeping the current maximal alphabetic run `acc`; a
period ending a non-empty run yields that run, any other non-alphabetic
character resets the run. -/
def extractTok : List Char → List Char → Option (List Char)
  | [], _ => none
  | c :: cs, acc =>
    if c.isAlpha then extractTok cs (acc ++ [c])
    else if c = '.' then (if acc = [] then extractTok cs [] else some acc)
    else extractTok cs []

/-- Title extraction of `add_title`: the first alphabetic token of the
name that immediately precedes a period, via `str.extract('([A-Za-z]+)\.')`;
`none` when the pattern does not match. -/
def extractTitle (name : String) : Option String :=
  (extractTok name.toList []).map (fun cs => String.mk cs)

/-- Replacement list of `add_title`: these raw titles are collapsed
to `"Rare"`. -/
def rareTitles : List String :=
  ["Lady", "Countess", "Capt", "Col", "Don", "Dr", "Major", "Rev", "Sir",
   "Jonkheer", "Dona"]

/-- Title normalization of `add_title`, in the order of the source's
`replace` calls: the rare list to `"Rare"`, then `Mlle` and `Ms` to
`"Miss"`, `Mme` to `"Mrs"`, then the rare list once more (the source
repeats that replacement). -/
def normTitle (t : String) : String :=
  let t1 := if t ∈ rareTitles then "Rare" else t
  let t2 := if t1 = "Mlle" then "Miss" else t1
  let t3 := if t2 = "Ms" then "Miss" else t2
  let t4 := if t3 = "Mme" then "Mrs" else t3
  if t4 ∈ rareTitles then "Rare" else t4

/-- Embedding of `add_title`: set the `Title` column from the `Name`
column (extraction then normalization; a failed extraction leaves `NaN`,
which every `replace` call passes through). -/
def add_title (df : List Rec) : List Rec :=
  df.map (fun r => { r with title := (extractTitle r.name).map normTitle })

/-- Age bucket test of the first `.loc` line of `add_age_group`:
`df['Age'] <= 16` (false on a missing age, as in pandas). -/
def ageLe16 (r : Rec) : Bool :=
  match r.age with
  | some a => decide (a ≤ 16)
  | none => false

/-- Age bucket test of the second `.loc` line of `add_age_group`:
`(df['Age'] > 16) & (df['Age'] <= 50)`. -/
def ageGt16Le50 (r : Rec) : Bool :=
  match r.age with
  | some a => decide (16 < a) && decide (a ≤ 50)
  | none => false

/-- Age bucket test of the third `.loc` line of `add_age_group`:
`df['Age'] > 50`. -/
def ageGt50 (r : Rec) : Bool :=
  match r.age with
  | some a => decide (50 < a)
  | none => false

/-- Embedding of `add_age_group`: the three masked assignments of the
source, in order (records matching no mask keep their `AgeGroup`;
`astype('category')` changes no values). -/
def add_age_group (df : List Rec) : List Rec :=
  let d1 := df.map (fun r => if ageLe16 r then { r with ageGroup := some "kids (<=16)" } else r)
  let d2 := d1.map (fun r => if ageGt16Le50 r then { r with ageGroup := some "adults (>16,<= 50)" } else r)
  d2.map (fun r => if ageGt50 r then { r with ageGroup := some "elderly (>50)" } else r)

/-- Embedding of `add_is_alone`: `IsAlone` is 1 when
`SibSp + Parch + 1 == 1`, else the default 0 (the source initialises the
column to 0 and overwrites the family-size-one rows with 1). -/
def add_is_alone (df : List Rec) : List Rec :=
  df.map (fun r =>
    { r with isAlone := some (if r.sibsp + r.parch + 1 = 1 then 1 else 0) })

/-! ## Imputation (`impute_age`, `impute_embarked`, `impute_fare`) -/

/-- Ages of the reference records in one `(Sex, Pclass, Title)` group,
with missing ages dropped: the
`src_df[(Sex==sex) & (Pclass==pclass) & (Title==title)]['Age'].dropna()`
of `impute_age` (the `Title` comparison uses `NaN`-unequal semantics). -/
def groupAges (src : List Rec) (sex : String) (pclass : Nat) (title : Option String) : List ℚ :=
  (src.filter (fun x =>
    decide (x.sex = sex) && decide (x.pclass = pclass) && optEq x.title title)).filterMap
    (fun x => x.age)

/-- Group median `guess_age` of `impute_age` for one loop iteration. -/
def guessAge (src : List Rec) (sex : String) (pclass : Nat) (title : Option String) : Option ℚ :=
  medianOpt (groupAges src sex pclass title)

/-- Mask of one `impute_age` loop iteration:
`dst_df['Age'].isnull() & (Sex==sex) & (Pclass==pclass) & (Title==title)`. -/
def matchesMissing (sex : String) (pclass : Nat) (title : Option String) (r : Rec) : Bool :=
  decide (r.age = none) && decide (r.sex = sex) && decide (r.pclass = pclass) &&
    optEq r.title title

/-- Masked assignment of one `impute_age` loop iteration on one record
(assigning the group median; a `NaN` median leaves the age missing, as
assigning `NaN` does). -/
def imputeStep (src : List Rec) (c : String × Nat × Option String) (r : Rec) : Rec :=
  if matchesMissing c.1 c.2.1 c.2.2 r then { r with age := guessAge src c.1 c.2.1 c.2.2 } else r

/-- Loop domain of `impute_age`: the cartesian product of
`src_df['Sex'].unique()`, `src_df['Pclass'].unique()` and
`src_df['Title'].unique()`, in loop order. -/
def comboList (src : List Rec) : List (String × Nat × Option String) :=
  (uniq (src.map (fun r => r.sex))).flatMap (fun s =>
    (uniq (src.map (fun r => r.pclass))).flatMap (fun p =>
      (uniq (src.map (fun r => r.title))).map (fun t => (s, p, t))))

/-- Embedding of `impute_age`: the triple loop over the reference's
unique sexes, classes and titles, each iteration performing the masked
median assignment on the target. -/
def impute_age (src dst : List Rec) : List Rec :=
  (comboList src).foldl (fun d c => d.map (imputeStep src c)) dst

/-- Embedding of `impute_embarked`: fill missing embarkation ports with
the most frequent port of the reference; `mode()[0]` raises on a
reference with no non-missing port, rendered as `none`. -/
def impute_embarked (src dst : List Rec) : Option (List Rec) :=
  match modeOpt (src.filterMap (fun r => r.embarked)) with
  | none => none
  | some p =>
      some (dst.map (fun r => if r.embarked = none then { r with embarked := some p } else r))

/-- Embedding of `impute_fare`: fill missing fares with the median
non-missing reference fare (`fillna` with a `NaN` median changes
nothing, so a missing median leaves missing fares in place). -/
def impute_fare (src dst : List Rec) : List Rec :=
  dst.map (fun r =>
    if r.fare = none then { r with fare := medianOpt (src.filterMap (fun x => x.fare)) } else r)

/-! ## The wrangling pipeline (`update_features`) -/

/-- Column list of the feature selection at the end of `update_features`. -/
def selectedColumns : List String :=
  ["Age", "AgeGroup", "Embarked", "Fare", "IsAlone", "Pclass", "Sex", "Title"]

/-- Embedding of `update_features`: title derivation on the reference and
the target (the source mutates both), age imputation from the reference,
age grouping, embarkation and fare imputation, the is-alone flag, and the
`astype('category')` conversions (value-preserving).  The result pairs
the post-call reference with the post-call target; `none` is the
`IndexError` of `impute_embarked` on a reference without ports. -/
def update_features (src dst : List Rec) : Option (List Rec × List Rec) :=
  let src1 := add_title src
  let dst1 := add_title dst
  let dst2 := impute_age src1 dst1
  let dst3 := add_age_group dst2
  match impute_embarked src1 dst3 with
  | none => none
  | some dst4 =>
      let dst5 := impute_fare src1 dst4
      let dst6 := add_is_alone dst5
      some (src1, dst6)

/-! ## One-hot encoding (`onehot_categories`)

`onehot_categories` calls `pd.get_dummies(df[cat_cols], drop_first=True)`
on the five category-typed columns of the selected frame
(`AgeGroup`, `Embarked`, `Pclass`, `Sex`, `Title`).  After the
`astype('category')` conversions the observed levels of each column are
its sorted distinct non-missing values; `get_dummies` emits one indicator
column per level except the first, named `col_level`.  The non-categorical
columns (`Age`, `Fare`, `IsAlone`) pass through, and the dummies are
concatenated after them. -/

/-- Observed category levels of a column: its distinct non-missing values
in sorted order, as `astype('category')` derives them. -/
def observedLevels (vals : List (Option String)) : List String :=
  sortLt strLt (uniq (vals.filterMap id))

/-- Indicator column names `get_dummies(..., drop_first=True)` produces
for one categorical column: one per observed level except the first. -/
def dummyColsFor (col : String) (levels : List String) : List String :=
  (levels.drop 1).map (fun v => col ++ "_" ++ v)

/-- Indicator row of one record for one categorical column: for each kept
level, 1 when the record holds that level, else 0 (a missing value, like
the dropped first level, yields all zeros). -/
def indicatorRow (levels : List String) (val : Option String) : List Nat :=
  (levels.drop 1).map (fun lv => if val = some lv then 1 else 0)

/-- Numeric class levels of `Pclass` in sorted order (the column is
numeric before `astype('category')`, so its levels sort numerically and
its dummies are named by the printed number). -/
def pclassLevels (df : List Rec) : List String :=
  (sortLt (fun a b => decide (a < b)) (uniq (df.map (fun r => r.pclass)))).map
    (fun p => Nat.repr p)

/-- Column list of `onehot_categories` on a wrangled dataset: the
pass-through numeric columns, then the dummy columns of the five
categorical columns in frame order. -/
def onehot_columns (df : List Rec) : List String :=
  ["Age", "Fare", "IsAlone"] ++
    dummyColsFor "AgeGroup" (observedLevels (df.map (fun r => r.ageGroup))) ++
    dummyColsFor "Embarked" (observedLevels (df.map (fun r => r.embarked))) ++
    dummyColsFor "Pclass" (pclassLevels df) ++
    dummyColsFor "Sex" (observedLevels (df.map (fun r => some r.sex))) ++
    dummyColsFor "Title" (observedLevels (df.map (fun r => r.title)))

/-- Encoded feature matrices of the module-level pipeline: wrangle the
training copy and the test copy against the raw training data (which the
first `update_features` call has already given a `Title` column), then
one-hot encode each dataset with its own observed levels, as the source
does.  The result pairs the training and test column lists. -/
def pipeline_columns (raw_train raw_test : List Rec) : Option (List String × List String) :=
  match update_features raw_train raw_train with
  | none => none
  | some (src1, train_wrangled) =>
      match update_features src1 raw_test with
      | none => none
      | some (_, test_wrangled) =>
          some (onehot_columns train_wrangled, onehot_columns test_wrangled)

/-! ## Model evaluation and prediction

A sklearn classifier is opaque to the pipeline (spec §4.5/§9: a duck-typed
object with `fit`/`predict`/`score`); it is embedded as a `fit` function
returning either an error (a failed fit raises) or a prediction function,
with `score` the accuracy of `predict` as sklearn's
`ClassifierMixin.score` computes it.  `StratifiedKFold.split` is likewise
external; its output is passed to `evaluate_models` as the list of
`(train_index, test_index)` pairs. -/

/-- An opaquely embedded sklearn classifier: fitting yields a predictor
(one label per feature row) or an error. -/
structure Classifier where
  fit : List (List ℚ) → List Nat → Except String (List (List ℚ) → List Nat)

/-- Row selection by index list: the embedding of `.iloc[indices]`. -/
def selectRows {α} (l : List α) (idx : List Nat) : List α :=
  idx.filterMap (fun i => l[i]?)

/-- Number of positions where two label lists agree. -/
def countAgree : List Nat → List Nat → Nat
  | a :: as, b :: bs => (if a = b then 1 else 0) + countAgree as bs
  | _, _ => 0

/-- Accuracy score of a fitted predictor on held-out rows and labels:
sklearn's `score` (fraction of correct predictions). -/
def scoreOf (pred : List (List ℚ) → List Nat) (x : List (List ℚ)) (y : List Nat) : ℚ :=
  (countAgree (pred x) y : ℚ) / (y.length : ℚ)

/-- Total cross-validation score of one candidate: the inner fold loop of
`evaluate_models`, accumulating the per-fold accuracy; a failed fit
raises out of the loop. -/
def foldScores (m : Classifier) (x : List (List ℚ)) (y : List Nat) :
    List (List Nat × List Nat) → ℚ → Except String ℚ
  | [], acc => Except.ok acc
  | (trainIdx, testIdx) :: rest, acc =>
      match m.fit (selectRows x trainIdx) (selectRows y trainIdx) with
      | Except.error e => Except.error e
      | Except.ok pred =>
          foldScores m x y rest (acc + scoreOf pred (selectRows x testIdx) (selectRows y testIdx))

/-- Mean cross-validation score of one candidate
(`total_score / nfold`). -/
def evalOneModel (m : Classifier) (nfold : Nat) (splits : List (List Nat × List Nat))
    (x : List (List ℚ)) (y : List Nat) : Except String ℚ :=
  match foldScores m x y splits 0 with
  | Except.error e => Except.error e
  | Except.ok total => Except.ok (total / (nfold : ℚ))

/-- Stable descending insertion by score, for the final
`sorted(model_scores, key=model_scores.get, reverse=True)` report. -/
def insertDesc (p : String × ℚ) : List (String × ℚ) → List (String × ℚ)
  | [] => [p]
  | q :: qs => if decide (q.2 < p.2) then p :: q :: qs else q :: insertDesc p qs

/-- Candidates sorted by descending mean score (stable, so candidates
with equal scores keep their insertion order, as Python's `sorted`). -/
def sortDesc (l : List (String × ℚ)) : List (String × ℚ) := l.foldr insertDesc []

/-- Mean scores of the candidates in order; the first fit failure
propagates out of `evaluate_models`, abandoning the remaining
candidates. -/
def modelScores (nfold : Nat) (splits : List (List Nat × List Nat))
    (x : List (List ℚ)) (y : List Nat) :
    List (String × Classifier) → Except String (List (String × ℚ))
  | [] => Except.ok []
  | (name, m) :: rest =>
      match evalOneModel m nfold splits x y with
      | Except.error e => Except.error e
      | Except.ok s =>
          match modelScores nfold splits x y rest with
          | Except.error e => Except.error e
          | Except.ok tail => Except.ok ((name, s) :: tail)

/-- Embedding of `evaluate_models`: k-fold evaluation of every candidate
and the descending-mean-accuracy report; an uncaught fit failure aborts
the whole call. -/
def evaluate_models (models : List (String × Classifier)) (nfold : Nat)
    (splits : List (List Nat × List Nat)) (x : List (List ℚ)) (y : List Nat) :
    Except String (List (String × ℚ)) :=
  match modelScores nfold splits x y models with
  | Except.error e => Except.error e
  | Except.ok scores => Except.ok (sortDesc scores)

/-- Embedding of `gen_models`: the candidate dictionary, with the two
sklearn constructor calls passed in as parameters. -/
def gen_models (svm rf : Classifier) : List (String × Classifier) :=
  [("SVM", svm), ("Random forest", rf)]

/-- Key of the final model in the module-level
`final_model = models['Random forest']`. -/
def final_model_name : String := "Random forest"

/-- Embedding of the module-level final-model selection: the dictionary
lookup `models['Random forest']`. -/
def final_model (svm rf : Classifier) : Option Classifier :=
  (gen_models svm rf).lookup final_model_name

/-- Embedding of `write_submission`: fit the chosen model on the full
training matrix and labels, predict the test matrix, and pair each
prediction with its passenger id (the written frame's two columns). -/
def write_submission (m : Classifier) (trainX : List (List ℚ)) (trainY : List Nat)
    (testX : List (List ℚ)) (passengerIds : List Nat) :
    Except String (List (Nat × Nat)) :=
  match m.fit trainX trainY with
  | Except.error e => Except.error e
  | Except.ok pred => Except.ok (passengerIds.zip (pred testX))

/-! ## Spec-side definitions

These two definitions follow the words of the specification (§4.2), to be
compared with the source-derived `extractTok` and `normTitle`. -/

/-- Modelled from the spec: the first maximal alphabetic token of the
text that is immediately followed by a period ("extract the first token
matching a capitalized-word-followed-by-period pattern ... the substring
immediately preceding a period, restricted to alphabetic characters"). -/
def specExtract : List Char → Option (List Char)
  | [] => none
  | c :: cs =>
    if c.isAlpha then
      if ((c :: cs).dropWhile Char.isAlpha).head? = some '.'
      then some ((c :: cs).takeWhile Char.isAlpha)
      else specExtract ((c :: cs).dropWhile Char.isAlpha).tail
    else specExtract cs
  termination_by cs => cs.length
  decreasing_by
    · have hle : ∀ (l : List Char), (List.dropWhile Char.isAlpha l).length ≤ l.length := by
        intro l
        induction l with
        | nil => simp [List.dropWhile]
        | cons a as ih =>
          simp only [List.dropWhile]
          split
          · exact Nat.le_trans ih (Nat.le_succ _)
          · simp
      have h2 := hle (c :: cs)
      have h3 := List.length_tail ((c :: cs).dropWhile Char.isAlpha)
      rw [List.dropWhile_cons_of_pos (by assumption)] at h2 h3 ⊢
      have h4 := hle cs
      simp only [List.length_cons] at h2 ⊢
      omega
    · simp

/-- Modelled from the spec: the fixed title normalization mapping
(the rare list to `"Rare"`, `Mlle` and `Ms` to `"Miss"`, `Mme` to
`"Mrs"`, every other token retained verbatim). -/
def specNormalize (t : String) : String :=
  if t ∈ rareTitles then "Rare"
  else if t = "Mlle" ∨ t = "Ms" then "Miss"
  else if t = "Mme" then "Mrs"
  else t

/-! ## Derived per-record forms

Every wrangling stage maps records independently, so each stage equals a
`List.map` of a per-record function; these are the per-record functions,
proved equal to the stages below. -/

/-- Per-record form of `add_title`. -/
def titleRec (r : Rec) : Rec := { r with title := (extractTitle r.name).map normTitle }

/-- Per-record form of `impute_age`: the fold of every loop iteration's
masked assignment over one record. -/
def imputeRec (src : List Rec) (r : Rec) : Rec :=
  (comboList src).foldl (fun r c => imputeStep src c r) r

/-- Per-record form of `add_age_group`: the three masked assignments in
sequence. -/
def ageGroupRec (r : Rec) : Rec :=
  let r1 := if ageLe16 r then { r with ageGroup := some "kids (<=16)" } else r
  let r2 := if ageGt16Le50 r1 then { r1 with ageGroup := some "adults (>16,<= 50)" } else r1
  if ageGt50 r2 then { r2 with ageGroup := some "elderly (>50)" } else r2

/-- Per-record form of `impute_embarked` once the reference mode `p`
is known. -/
def fillEmbRec (p : String) (r : Rec) : Rec :=
  if r.embarked = none then { r with embarked := some p } else r

/-- Per-record form of `impute_fare` with the reference fare median `g`. -/
def fareRec (g : Option ℚ) (r : Rec) : Rec :=
  if r.fare = none then { r with fare := g } else r

/-- Per-record form of `add_is_alone`. -/
def aloneRec (r : Rec) : Rec :=
  { r with isAlone := some (if r.sibsp + r.parch + 1 = 1 then 1 else 0) }

/-- Per-record form of the whole of `update_features` on the target,
given the post-title reference `src1` and its embarkation mode `p`. -/
def wrangleRec (src1 : List Rec) (p : String) (r : Rec) : Rec :=
  aloneRec (fareRec (medianOpt (src1.filterMap (fun x => x.fare)))
    (fillEmbRec p (ageGroupRec (imputeRec src1 (titleRec r)))))

/-! ## Concrete instances

Small concrete datasets and classifiers used to evaluate the pipeline at
specific inputs. -/

/-- Reference record for the age-imputation example: a 20-year-old
third-class "Mr". -/
def W1s1 : Rec :=
  { passengerId := 1, pclass := 3, name := "A, Mr. B", sex := "male",
    age := some 20, sibsp := 0, parch := 0, fare := some 7, embarked := some "S",
    title := some "Mr" }

/-- Reference record for the age-imputation example, aged 30. -/
def W1s2 : Rec := { W1s1 with passengerId := 2, age := some 30 }

/-- Reference record for the age-imputation example, aged 40. -/
def W1s3 : Rec := { W1s1 with passengerId := 3, age := some 40 }

/-- Reference dataset for the age-imputation example: the
(male, 3, "Mr") group's non-missing ages are 20, 30 and 40. -/
def W1src : List Rec := [W1s1, W1s2, W1s3]

/-- Target record with a missing age in the (male, 3, "Mr") group. -/
def W1r0 : Rec :=
  { passengerId := 10, pclass := 3, name := "K, Mr. Z", sex := "male",
    age := none, sibsp := 0, parch := 0, fare := some 8, embarked := some "S",
    title := some "Mr" }

/-- Target record with a present age. -/
def W1r1 : Rec := { W1r0 with passengerId := 11, age := some 25 }

/-- Target dataset for the age-imputation example. -/
def W1dst : List Rec := [W1r0, W1r1]

/-- Training record of the column-mismatch example: a first-class
"Mrs". -/
def W2t1 : Rec :=
  { passengerId := 1, pclass := 1, name := "A, Mrs. B", sex := "female",
    age := some 30, sibsp := 0, parch := 0, fare := some 10, embarked := some "S",
    survived := some 1 }

/-- Training record of the column-mismatch example: a first-class
"Mr". -/
def W2t2 : Rec :=
  { passengerId := 2, pclass := 1, name := "C, Mr. D", sex := "male",
    age := some 40, sibsp := 0, parch := 0, fare := some 20, embarked := some "S",
    survived := some 0 }

/-- Training dataset of the column-mismatch example (titles Mr and Mrs,
both sexes). -/
def W2train : List Rec := [W2t1, W2t2]

/-- Evaluation record of the column-mismatch example: a "Master", a title
level absent from the training dataset. -/
def W2u1 : Rec :=
  { passengerId := 3, pclass := 1, name := "E, Master. F", sex := "male",
    age := some 8, sibsp := 0, parch := 0, fare := some 5, embarked := some "S" }

/-- Evaluation dataset of the column-mismatch example. -/
def W2test : List Rec := [W2u1]

/-- Encoded training columns of the column-mismatch example. -/
def W2trainCols : List String := ["Age", "Fare", "IsAlone", "Sex_male", "Title_Mrs"]

/-- Encoded evaluation columns of the column-mismatch example. -/
def W2testCols : List String := ["Age", "Fare", "IsAlone"]

/-- Reference record of the reference-mutation example, with no `Title`
column yet. -/
def W3rA : Rec :=
  { passengerId := 1, pclass := 3, name := "Braund, Mr. Owen", sex := "male",
    age := some 22, sibsp := 1, parch := 0, fare := some 7, embarked := some "S",
    survived := some 0 }

/-- Reference dataset of the reference-mutation example. -/
def W3src : List Rec := [W3rA]

/-- Target dataset of the reference-mutation example. -/
def W3dst : List Rec :=
  [{ passengerId := 2, pclass := 2, name := "Heikkinen, Miss. Laina", sex := "female",
     age := some 26, sibsp := 0, parch := 0, fare := some 8, embarked := some "Q" }]

/-- Post-call reference of the reference-mutation example. -/
def W3src1 : List Rec := (update_features W3src W3dst).elim [] (fun pr => pr.1)

/-- Post-call target of the reference-mutation example. -/
def W3out : List Rec := (update_features W3src W3dst).elim [] (fun pr => pr.2)

/-- Reference record of the full-imputation example (ages 21, 23, 25 and
fares 7, 8, 9 in the (male, 3, "Mr") group; all ports "S"). -/
def W5s1 : Rec :=
  { passengerId := 1, pclass := 3, name := "A, Mr. B", sex := "male",
    age := some 21, sibsp := 0, parch := 0, fare := some 7, embarked := some "S",
    survived := some 0 }

/-- Second reference record of the full-imputation example. -/
def W5s2 : Rec :=
  { W5s1 with passengerId := 2, name := "C, Mr. D", age := some 23, fare := some 8 }

/-- Third reference record of the full-imputation example. -/
def W5s3 : Rec :=
  { W5s1 with passengerId := 3, name := "E, Mr. F", age := some 25, fare := some 9 }

/-- Reference dataset of the full-imputation example. -/
def W5src : List Rec := [W5s1, W5s2, W5s3]

/-- Target record of the full-imputation example: age, fare and port all
missing. -/
def W5r0 : Rec :=
  { passengerId := 10, pclass := 3, name := "G, Mr. H", sex := "male",
    age := none, sibsp := 0, parch := 0, fare := none, embarked := none }

/-- Target dataset of the full-imputation example. -/
def W5dst : List Rec := [W5r0]

/-- Post-call reference of the full-imputation example. -/
def W5src1 : List Rec := (update_features W5src W5dst).elim [] (fun pr => pr.1)

/-- Post-call target of the full-imputation example. -/
def W5out : List Rec := (update_features W5src W5dst).elim [] (fun pr => pr.2)

/-- First wrangled record of the full-imputation example. -/
def W5r2 : Rec := (W5out[0]?).getD default

/-- Dataset for the age-group example: one 29-year-old record. -/
def W9r : Rec :=
  { passengerId := 1, pclass := 1, name := "A, Miss. B", sex := "female",
    age := some 29, sibsp := 0, parch := 0, fare := some 100, embarked := some "S" }

/-- Dataset for the age-group example. -/
def W9df : List Rec := [W9r]

/-- Reference dataset of the imputation-gap example: only a
(female, 1, "Mrs") group, so a (male, 3, "Mr") target finds no group. -/
def W10src : List Rec :=
  [{ passengerId := 1, pclass := 1, name := "A, Mrs. B", sex := "female",
     age := some 35, sibsp := 0, parch := 0, fare := some 80, embarked := some "C",
     title := some "Mrs" }]

/-- Target record of the imputation-gap example: missing age in a group
absent from the reference. -/
def W10r : Rec :=
  { passengerId := 5, pclass := 3, name := "C, Mr. D", sex := "male",
    age := none, sibsp := 0, parch := 0, fare := some 7, embarked := some "S",
    title := some "Mr" }

/-- Target dataset of the imputation-gap example. -/
def W10dst : List Rec := [W10r]

/-- Wrangled target of the imputation-gap example. -/
def W10out : List Rec := (update_features W10src W10dst).elim [] (fun pr => pr.2)

/-- Categorical column values for the one-hot example: levels a and b,
one missing entry. -/
def W7vals : List (Option String) := [some "b", some "a", some "b", none]

/-- A classifier whose fit always fails with a numeric-instability
message. -/
def failClf : Classifier := { fit := fun _ _ => Except.error "numeric instability" }

/-- A predictor answering 0 for every row. -/
def predZero : List (List ℚ) → List Nat := fun rows => rows.map (fun _ => 0)

/-- A predictor answering 1 for every row. -/
def predOne : List (List ℚ) → List Nat := fun rows => rows.map (fun _ => 1)

/-- A classifier whose fit always succeeds, predicting 0 everywhere. -/
def okClf : Classifier := { fit := fun _ _ => Except.ok predZero }

/-- A classifier predicting 1 everywhere: perfect on all-ones labels. -/
def svmGood : Classifier := { fit := fun _ _ => Except.ok predOne }

/-- A classifier predicting 0 everywhere: always wrong on all-ones
labels. -/
def rfBad : Classifier := { fit := fun _ _ => Except.ok predZero }

/-- One split: train on row 0, test on row 1. -/
def oneSplit : List (List Nat × List Nat) := [([0], [1])]

/-- Feature matrix with two one-column rows. -/
def twoRowsX : List (List ℚ) := [[1], [2]]

/-- Labels for the fit-failure example. -/
def E4y : List Nat := [0, 1]

/-- All-ones labels for the ranking example. -/
def E6y : List Nat := [1, 1]

/-- Evaluation matrix for the prediction example. -/
def E6testX : List (List ℚ) := [[3], [4]]

/-- Passenger identifiers for the prediction example. -/
def E6ids : List Nat := [901, 902]

/-! ## Helper lemmas: list utilities -/

/-- Membership in the deduplication helper: an element appears iff it is
in the input and not among the already-seen values. -/
theorem mem_uniqAux {α} [DecidableEq α] (l : List α) :
    ∀ (seen : List α) (x : α), x ∈ uniqAux seen l ↔ x ∈ l ∧ x ∉ seen := by
  induction l with
  | nil => simp [uniqAux]
  | cons a rest ih =>
    intro seen x
    simp only [uniqAux]
    by_cases ha : a ∈ seen
    · simp only [if_pos ha, ih, List.mem_cons]
      constructor
      · rintro ⟨h1, h2⟩; exact ⟨Or.inr h1, h2⟩
      · rintro ⟨(rfl | h1), h2⟩
        · exact absurd ha h2
        · exact ⟨h1, h2⟩
    · simp only [if_neg ha, List.mem_cons, ih]
      constructor
      · rintro (rfl | ⟨h1, h2⟩)
        · exact ⟨Or.inl rfl, ha⟩
        · simp only [List.mem_cons, not_or] at h2
          exact ⟨Or.inr h1, h2.2⟩
      · rintro ⟨(rfl | h1), h2⟩
        · exact Or.inl rfl
        · by_cases hx : x = a
          · exact Or.inl hx
          · exact Or.inr ⟨h1, by simp [h2, hx]⟩

/-- Deduplication preserves membership. -/
theorem mem_uniq {α} [DecidableEq α] (l : List α) (x : α) : x ∈ uniq l ↔ x ∈ l := by
  simp [uniq, mem_uniqAux]

/-- The deduplication helper has no duplicates. -/
theorem nodup_uniqAux {α} [DecidableEq α] (l : List α) :
    ∀ (seen : List α), (uniqAux seen l).Nodup := by
  induction l with
  | nil => simp [uniqAux]
  | cons a rest ih =>
    intro seen
    simp only [uniqAux]
    by_cases ha : a ∈ seen
    · simp [ha, ih]
    · simp only [if_neg ha, List.nodup_cons]
      refine ⟨?_, ih _⟩
      rw [mem_uniqAux]
      simp

/-- Deduplication yields a duplicate-free list. -/
theorem nodup_uniq {α} [DecidableEq α] (l : List α) : (uniq l).Nodup := nodup_uniqAux l []

/-- Deduplication of a non-empty list is non-empty. -/
theorem uniq_ne_nil {α} [DecidableEq α] (l : List α) (h : l ≠ []) : uniq l ≠ [] := by
  obtain ⟨a, rest, rfl⟩ := List.exists_cons_of_ne_nil h
  intro hc
  have : a ∈ uniq (a :: rest) := (mem_uniq _ _).mpr (List.mem_cons_self _ _)
  simp [hc] at this

/-- Membership after sorted insertion. -/
theorem mem_insertLt {α} (lt : α → α → Bool) (x y : α) (l : List α) :
    y ∈ insertLt lt x l ↔ y = x ∨ y ∈ l := by
  induction l with
  | nil => simp [insertLt]
  | cons a rest ih =>
    simp only [insertLt]
    split
    · simp [List.mem_cons]
    · simp only [List.mem_cons, ih]
      tauto

/-- Sorting preserves membership. -/
theorem mem_sortLt {α} (lt : α → α → Bool) (l : List α) (y : α) :
    y ∈ sortLt lt l ↔ y ∈ l := by
  induction l with
  | nil => simp [sortLt]
  | cons a rest ih =>
    simp only [sortLt, List.foldr] at ih ⊢
    rw [mem_insertLt, ih, List.mem_cons]

/-- Sorted insertion preserves freedom from duplicates. -/
theorem nodup_insertLt {α} (lt : α → α → Bool) (x : α) (l : List α)
    (hx : x ∉ l) (hl : l.Nodup) : (insertLt lt x l).Nodup := by
  induction l with
  | nil => simp [insertLt]
  | cons a rest ih =>
    simp only [List.mem_cons, not_or] at hx
    simp only [List.nodup_cons] at hl
    simp only [insertLt]
    split
    · refine List.Nodup.cons ?_ (List.Nodup.cons hl.1 hl.2)
      intro hmem
      rcases List.mem_cons.mp hmem with h | h
      · exact hx.1 h
      · exact hx.2 h
    · refine List.Nodup.cons ?_ (ih hx.2 hl.2)
      intro hmem
      rcases (mem_insertLt lt x a _).mp hmem with h | h
      · exact hx.1 h.symm
      · exact hl.1 h

/-- Sorting preserves freedom from duplicates. -/
theorem nodup_sortLt {α} (lt : α → α → Bool) (l : List α) (hl : l.Nodup) :
    (sortLt lt l).Nodup := by
  induction l with
  | nil => simp [sortLt]
  | cons a rest ih =>
    simp only [List.nodup_cons] at hl
    have heq : sortLt lt (a :: rest) = insertLt lt a (sortLt lt rest) := rfl
    rw [heq]
    refine nodup_insertLt _ _ _ ?_ (ih hl.2)
    rw [mem_sortLt]
    exact hl.1

/-- Sorted insertion adds one to the length. -/
theorem length_insertLt {α} (lt : α → α → Bool) (x : α) (l : List α) :
    (insertLt lt x l).length = l.length + 1 := by
  induction l with
  | nil => simp [insertLt]
  | cons a rest ih =>
    simp only [insertLt]
    split <;> simp [ih]

/-- Sorting preserves the length. -/
theorem length_sortLt {α} (lt : α → α → Bool) (l : List α) :
    (sortLt lt l).length = l.length := by
  induction l with
  | nil => rfl
  | cons a rest ih =>
    simp only [sortLt, List.foldr] at ih ⊢
    rw [length_insertLt, ih, List.length_cons]

/-- Median existence: a non-empty list of values has a median. -/
theorem medianOpt_isSome (l : List ℚ) (h : l ≠ []) : ∃ m, medianOpt l = some m := by
  have hlen : (sortQ l).length = l.length := length_sortLt _ _
  have hpos : 0 < (sortQ l).length := by
    rw [hlen]
    exact List.length_pos.mpr h
  unfold medianOpt
  simp only
  rw [if_neg (by omega)]
  by_cases hodd : (sortQ l).length % 2 = 1
  · rw [if_pos hodd]
    have hlt : (sortQ l).length / 2 < (sortQ l).length := Nat.div_lt_self hpos (by norm_num)
    exact ⟨_, (List.getElem?_eq_some.mpr ⟨hlt, rfl⟩)⟩
  · rw [if_neg hodd]
    have h1 : (sortQ l).length / 2 - 1 < (sortQ l).length := by
      have := Nat.div_le_self (sortQ l).length 2
      omega
    have h2 : (sortQ l).length / 2 < (sortQ l).length := Nat.div_lt_self hpos (by norm_num)
    rw [List.getElem?_eq_some.mpr ⟨h1, rfl⟩, List.getElem?_eq_some.mpr ⟨h2, rfl⟩]
    exact ⟨_, rfl⟩

/-- Mode existence: a non-empty list of values has a most frequent value. -/
theorem modeOpt_isSome (l : List String) (h : l ≠ []) : ∃ m, modeOpt l = some m := by
  have hne : sortLt strLt (uniq l) ≠ [] := by
    intro hc
    have := length_sortLt strLt (uniq l)
    rw [hc] at this
    have h2 := uniq_ne_nil l h
    simp only [List.length_nil] at this
    exact h2 (List.length_eq_zero.mp this.symm)
  obtain ⟨a, rest, heq⟩ := List.exists_cons_of_ne_nil hne
  unfold modeOpt
  rw [heq]
  simp only [List.foldl]
  have : ∀ (rs : List String) (b : String),
      ∃ m, rs.foldl (fun best v =>
        match best with
        | none => some v
        | some b => if l.count v > l.count b then some v else best) (some b) = some m := by
    intro rs
    induction rs with
    | nil => exact fun b => ⟨b, rfl⟩
    | cons v vs ih =>
      intro b
      simp only [List.foldl]
      split <;> exact ih _
  exact this rest a

/-- A pandas equality mask is true exactly on equal present values. -/
theorem optEq_eq_true {α} [DecidableEq α] (a b : Option α) :
    optEq a b = true ↔ ∃ x, a = some x ∧ b = some x := by
  cases a <;> cases b <;> simp [optEq]
  exact eq_comm

/-- Writing a record's age with its current value changes nothing. -/
theorem set_age_self (r : Rec) : ({ r with age := r.age } : Rec) = r := by
  cases r; rfl

/-- Writing a record's fare with its current value changes nothing. -/
theorem set_fare_self (r : Rec) : ({ r with fare := r.fare } : Rec) = r := by
  cases r; rfl

/-! ## Helper lemmas: the age-imputation loop -/

/-- Characterization of one loop iteration's mask: it holds exactly on a
record with missing age whose sex, class and present title equal the
iteration's values. -/
theorem matchesMissing_eq_true (s : String) (p : Nat) (t : Option String) (r : Rec) :
    matchesMissing s p t r = true ↔
      r.age = none ∧ r.sex = s ∧ r.pclass = p ∧ ∃ u, r.title = some u ∧ t = some u := by
  simp only [matchesMissing, Bool.and_eq_true, decide_eq_true_eq, optEq_eq_true]
  tauto

/-- A record with a present age is untouched by every iteration of the
imputation loop. -/
theorem foldl_imputeStep_some (src : List Rec) (r : Rec) (a : ℚ) (ha : r.age = some a)
    (cs : List (String × Nat × Option String)) :
    cs.foldl (fun r c => imputeStep src c r) r = r := by
  induction cs with
  | nil => rfl
  | cons c cs ih =>
    simp only [List.foldl]
    have hm : imputeStep src c r = r := by
      rw [imputeStep, if_neg]
      simp [matchesMissing, ha]
    rw [hm]
    exact ih

/-- The mask of the iteration carrying a record's own sex, class and
(present) title holds on that record when its age is missing. -/
theorem matchesMissing_self (r : Rec) (ha : r.age = none) (ht : r.title ≠ none) :
    matchesMissing r.sex r.pclass r.title r = true := by
  obtain ⟨u, hu⟩ := Option.ne_none_iff_exists'.mp ht
  exact (matchesMissing_eq_true _ _ _ _).mpr ⟨ha, rfl, rfl, u, hu, hu⟩

/-- Characterization of the imputation loop on one record with a missing
age: if the loop visits the record's own combination (and the record's
title is present), the age becomes the group median; otherwise the record
is untouched.  (A missing group median leaves the record unchanged, which
the `with age := …` form absorbs since the record's age is `none`.) -/
theorem foldl_imputeStep_none (src : List Rec) (r : Rec) (ha : r.age = none)
    (cs : List (String × Nat × Option String)) :
    cs.foldl (fun r c => imputeStep src c r) r =
      if (r.sex, r.pclass, r.title) ∈ cs ∧ r.title ≠ none
      then { r with age := guessAge src r.sex r.pclass r.title }
      else r := by
  induction cs with
  | nil => simp
  | cons c cs ih =>
    simp only [List.foldl]
    by_cases hm : matchesMissing c.1 c.2.1 c.2.2 r = true
    · obtain ⟨-, hs, hp, u, ht, htc⟩ := (matchesMissing_eq_true _ _ _ _).mp hm
      have htr : r.title ≠ none := by rw [ht]; exact Option.some_ne_none u
      have hceq : c = (r.sex, r.pclass, r.title) := by
        obtain ⟨c1, c2, c3⟩ := c
        simp only at hs hp htc
        simp only [Prod.mk.injEq]
        exact ⟨hs.symm, hp.symm, by rw [htc, ht]⟩
      have hstep : imputeStep src c r = { r with age := guessAge src r.sex r.pclass r.title } := by
        rw [imputeStep, if_pos hm, hceq]
      have hcond : (r.sex, r.pclass, r.title) ∈ c :: cs ∧ r.title ≠ none :=
        ⟨by rw [hceq]; exact List.mem_cons_self _ _, htr⟩
      rw [hstep, if_pos hcond]
      cases hguess : guessAge src r.sex r.pclass r.title with
      | none =>
        have hid : ({ r with age := none } : Rec) = r := by
          rw [← ha, set_age_self]
        rw [hid, ih, hguess, hid]
        split <;> rfl
      | some m =>
        exact foldl_imputeStep_some src _ m (by simp) cs
    · have hstep : imputeStep src c r = r := by
        rw [imputeStep, if_neg]
        simpa using hm
      rw [hstep, ih]
      by_cases hc : (r.sex, r.pclass, r.title) ∈ cs ∧ r.title ≠ none
      · rw [if_pos hc, if_pos ⟨List.mem_cons_of_mem _ hc.1, hc.2⟩]
      · rw [if_neg hc, if_neg ?_]
        rintro ⟨hmem, htr⟩
        rcases List.mem_cons.mp hmem with heq | hmem2
        · subst heq
          exact hm (matchesMissing_self r ha htr)
        · exact hc ⟨hmem2, htr⟩

/-- Whole-list form of the age imputation: the triple loop maps each
target record independently through `imputeRec`. -/
theorem foldl_map_comm {β : Type} (g : β → Rec → Rec) (cs : List β) :
    ∀ d : List Rec,
      cs.foldl (fun d c => d.map (g c)) d = d.map (fun r => cs.foldl (fun r c => g c r) r) := by
  induction cs with
  | nil => intro d; simp
  | cons c cs ih =>
    intro d
    simp only [List.foldl]
    rw [ih (d.map (g c)), List.map_map]
    rfl

/-- The age imputation is a map of the per-record imputation. -/
theorem impute_age_eq_map (src dst : List Rec) :
    impute_age src dst = dst.map (imputeRec src) := by
  unfold impute_age imputeRec
  exact foldl_map_comm (fun c r => imputeStep src c r) (comboList src) dst

/-- The combination of any reference record's own sex, class and title is
visited by the imputation loop. -/
theorem combo_mem_of_src (src : List Rec) (x : Rec) (hx : x ∈ src) :
    (x.sex, x.pclass, x.title) ∈ comboList src := by
  simp only [comboList, List.mem_flatMap, List.mem_map]
  refine ⟨x.sex, (mem_uniq _ _).mpr (List.mem_map_of_mem _ hx),
    x.pclass, (mem_uniq _ _).mpr (List.mem_map_of_mem _ hx),
    x.title, (mem_uniq _ _).mpr (List.mem_map_of_mem _ hx), rfl⟩

/-- A group with a non-missing reference age contains a reference record
carrying the group's sex, class and (present) title. -/
theorem groupAges_witness (src : List Rec) (s : String) (p : Nat) (t : Option String)
    (h : groupAges src s p t ≠ []) :
    ∃ x ∈ src, x.sex = s ∧ x.pclass = p ∧ x.title = t ∧ t ≠ none := by
  unfold groupAges at h
  rw [ne_eq, List.filterMap_eq_nil_iff] at h
  push_neg at h
  obtain ⟨x, hxf, hxa⟩ := h
  rw [List.mem_filter] at hxf
  obtain ⟨hxsrc, hpred⟩ := hxf
  simp only [Bool.and_eq_true, decide_eq_true_eq] at hpred
  obtain ⟨⟨hs, hp⟩, hteq⟩ := hpred
  obtain ⟨u, hxu, htu⟩ := (optEq_eq_true _ _).mp hteq
  exact ⟨x, hxsrc, hs, hp, by rw [hxu, htu], by rw [htu]; exact Option.some_ne_none u⟩

/-- C1.  Age imputation: a target record with a present age is returned
unchanged; a target record with a missing age whose (sex, class, title)
group has non-missing ages in the reference (in particular the
combination is observed there) gets exactly the median of those ages, and
no other field changes. -/
theorem impute_age_spec (src dst : List Rec) (i : Nat) (r : Rec) (hr : dst[i]? = some r) :
    (∀ a, r.age = some a → (impute_age src dst)[i]? = some r) ∧
    (r.age = none → groupAges src r.sex r.pclass r.title ≠ [] →
      ∃ m, medianOpt (groupAges src r.sex r.pclass r.title) = some m ∧
        (impute_age src dst)[i]? = some { r with age := some m }) := by
  constructor
  · intro a ha
    rw [impute_age_eq_map, List.getElem?_map, hr, Option.map_some']
    rw [show imputeRec src r = r from foldl_imputeStep_some src r a ha _]
  · intro ha hne
    obtain ⟨x, hx, hxs, hxp, hxt, htne⟩ := groupAges_witness src _ _ _ hne
    have hmem : (r.sex, r.pclass, r.title) ∈ comboList src := by
      have h2 := combo_mem_of_src src x hx
      rwa [hxs, hxp, hxt] at h2
    obtain ⟨m, hm⟩ := medianOpt_isSome _ hne
    refine ⟨m, hm, ?_⟩
    rw [impute_age_eq_map, List.getElem?_map, hr, Option.map_some']
    unfold imputeRec
    rw [foldl_imputeStep_none src r ha, if_pos ⟨hmem, htne⟩]
    unfold guessAge
    rw [hm]

/-! ## Helper lemmas: age grouping -/

/-- The age grouping is a map of the per-record grouping. -/
theorem add_age_group_eq_map (df : List Rec) : add_age_group df = df.map ageGroupRec := by
  simp only [add_age_group, List.map_map]
  rfl

/-- Per-record age grouping of a present age: the bucket is chosen by the
three interval tests. -/
theorem ageGroupRec_eq (r : Rec) (a : ℚ) (ha : r.age = some a) :
    ageGroupRec r =
      { r with ageGroup := some (if a ≤ 16 then "kids (<=16)"
          else if a ≤ 50 then "adults (>16,<= 50)" else "elderly (>50)") } := by
  unfold ageGroupRec
  dsimp only
  rcases le_or_lt a 16 with h1 | h1
  · rw [if_pos (show ageLe16 r = true by simp [ageLe16, ha, h1])]
    rw [if_neg (show ¬ageGt16Le50 { r with ageGroup := some "kids (<=16)" } = true by
      simp [ageGt16Le50, ha, h1, not_lt])]
    rw [if_neg (show ¬ageGt50 { r with ageGroup := some "kids (<=16)" } = true by
      simp [ageGt50, ha]
      linarith)]
    simp [h1]
  · rcases le_or_lt a 50 with h2 | h2
    · rw [if_neg (show ¬ageLe16 r = true by simp [ageLe16, ha, not_le, h1])]
      rw [if_pos (show ageGt16Le50 r = true by simp [ageGt16Le50, ha, h1, h2])]
      rw [if_neg (show ¬ageGt50 { r with ageGroup := some "adults (>16,<= 50)" } = true by
        simp [ageGt50, ha, not_lt, h2])]
      simp [not_le.mpr h1, h2]
    · rw [if_neg (show ¬ageLe16 r = true by simp [ageLe16, ha, not_le]; linarith)]
      rw [if_neg (show ¬ageGt16Le50 r = true by simp [ageGt16Le50, ha, not_le, h2])]
      rw [if_pos (show ageGt50 r = true by simp [ageGt50, ha, h2])]
      simp [not_le.mpr h2, show ¬a ≤ 16 by linarith]

/-- Per-record age grouping of a missing age: no mask holds, the record
is unchanged. -/
theorem ageGroupRec_none (r : Rec) (ha : r.age = none) : ageGroupRec r = r := by
  unfold ageGroupRec
  dsimp only
  rw [if_neg (show ¬ageLe16 r = true by simp [ageLe16, ha])]
  rw [if_neg (show ¬ageGt16Le50 r = true by simp [ageGt16Le50, ha])]
  rw [if_neg (show ¬ageGt50 r = true by simp [ageGt50, ha])]

/-- C9.  Age grouping partitions the present ages: every record with a
present age is assigned exactly one bucket, the bucket being "kids" iff
age ≤ 16, "adults" iff 16 < age ≤ 50 and "elderly" iff age > 50; no
other field changes. -/
theorem add_age_group_spec (df : List Rec) (i : Nat) (r : Rec) (a : ℚ)
    (hr : df[i]? = some r) (ha : r.age = some a) :
    ∃ g, (add_age_group df)[i]? = some { r with ageGroup := some g } ∧
      (g = "kids (<=16)" ∨ g = "adults (>16,<= 50)" ∨ g = "elderly (>50)") ∧
      (g = "kids (<=16)" ↔ a ≤ 16) ∧
      (g = "adults (>16,<= 50)" ↔ 16 < a ∧ a ≤ 50) ∧
      (g = "elderly (>50)" ↔ 50 < a) := by
  rw [add_age_group_eq_map, List.getElem?_map, hr, Option.map_some', ageGroupRec_eq r a ha]
  refine ⟨_, rfl, ?_, ?_, ?_, ?_⟩
  · split
    · exact Or.inl rfl
    · split
      · exact Or.inr (Or.inl rfl)
      · exact Or.inr (Or.inr rfl)
  · split
    · simp_all
    · split <;> simp_all
  · split
    · rename_i h
      constructor
      · intro hc; exact absurd hc (by decide)
      · rintro ⟨h2, -⟩; linarith
    · split <;> rename_i h h2
      · simp_all [not_le]
      · constructor
        · intro hc; exact absurd hc (by decide)
        · rintro ⟨-, h3⟩; exact absurd h3 (by simp_all [not_le])
  · split
    · rename_i h
      constructor
      · intro hc; exact absurd hc (by decide)
      · intro h2; linarith
    · split <;> rename_i h h2
      · constructor
        · intro hc; exact absurd hc (by decide)
        · intro h3; linarith
      · simp_all [not_le]

/-- C10.  A target record with a missing age whose group has no
non-missing reference ages (in particular whose combination is absent
from the reference) is left untouched by the imputation, and the
subsequent age grouping assigns it no bucket. -/
theorem impute_gap_spec (src dst : List Rec) (i : Nat) (r : Rec) (hr : dst[i]? = some r)
    (ha : r.age = none) (hgrp : groupAges src r.sex r.pclass r.title = [])
    (hag : r.ageGroup = none) :
    ∃ r2, (add_age_group (impute_age src dst))[i]? = some r2 ∧
      r2 = r ∧ r2.age = none ∧ r2.ageGroup = none := by
  have hguess : guessAge src r.sex r.pclass r.title = none := by
    unfold guessAge
    rw [hgrp]
    rfl
  have himp : imputeRec src r = r := by
    unfold imputeRec
    rw [foldl_imputeStep_none src r ha]
    split
    · rw [hguess, ← ha, set_age_self]
    · rfl
  refine ⟨r, ?_, rfl, ha, hag⟩
  rw [add_age_group_eq_map, impute_age_eq_map, List.map_map, List.getElem?_map, hr,
    Option.map_some']
  simp only [Function.comp]
  rw [himp, ageGroupRec_none r ha]

/-! ## Helper lemmas: the wrangling pipeline -/

/-- The title derivation is a map of the per-record derivation. -/
theorem add_title_eq_map (df : List Rec) : add_title df = df.map titleRec := rfl

/-- A successful embarkation imputation is the map of the per-record fill
with the reference's most frequent port. -/
theorem impute_embarked_eq (src dst out : List Rec) (h : impute_embarked src dst = some out) :
    ∃ p, modeOpt (src.filterMap (fun r => r.embarked)) = some p ∧
      out = dst.map (fillEmbRec p) := by
  unfold impute_embarked at h
  cases hm : modeOpt (src.filterMap (fun r => r.embarked)) with
  | none => rw [hm] at h; exact absurd h (by simp)
  | some p =>
    rw [hm] at h
    simp only [Option.some.injEq] at h
    exact ⟨p, rfl, h.symm⟩

/-- The fare imputation is a map of the per-record fill with the
reference's fare median. -/
theorem impute_fare_eq_map (src dst : List Rec) :
    impute_fare src dst = dst.map (fareRec (medianOpt (src.filterMap (fun x => x.fare)))) := rfl

/-- The is-alone derivation is a map of the per-record derivation. -/
theorem add_is_alone_eq_map (df : List Rec) : add_is_alone df = df.map aloneRec := rfl

/-- Characterization of a successful `update_features` call: the
reference comes back with titles derived, and the target is the
per-record wrangling composition applied to every record. -/
theorem update_features_eq (src dst src1 out : List Rec)
    (h : update_features src dst = some (src1, out)) :
    src1 = add_title src ∧
      ∃ p, modeOpt ((add_title src).filterMap (fun r => r.embarked)) = some p ∧
        out = dst.map (wrangleRec (add_title src) p) := by
  unfold update_features at h
  dsimp only at h
  cases hemb : impute_embarked (add_title src)
      (add_age_group (impute_age (add_title src) (add_title dst))) with
  | none => rw [hemb] at h; exact absurd h (by simp)
  | some dst4 =>
    rw [hemb] at h
    simp only [Option.some.injEq, Prod.mk.injEq] at h
    obtain ⟨hsrc, hout⟩ := h
    refine ⟨hsrc.symm, ?_⟩
    obtain ⟨p, hp, hdst4⟩ := impute_embarked_eq _ _ _ hemb
    refine ⟨p, hp, ?_⟩
    rw [← hout, hdst4, add_age_group_eq_map, impute_age_eq_map, add_title_eq_map,
      impute_fare_eq_map, add_is_alone_eq_map]
    simp only [List.map_map]
    rw [add_title_eq_map]
    simp only [List.map_map]
    rfl

/-- Fields other than the title survive the title derivation. -/
theorem titleRec_fields (r : Rec) :
    (titleRec r).age = r.age ∧ (titleRec r).fare = r.fare ∧ (titleRec r).embarked = r.embarked ∧
      (titleRec r).sex = r.sex ∧ (titleRec r).pclass = r.pclass :=
  ⟨rfl, rfl, rfl, rfl, rfl⟩

/-- The age imputation changes no field but the age. -/
theorem imputeRec_fields (src : List Rec) (r : Rec) :
    (imputeRec src r).fare = r.fare ∧ (imputeRec src r).embarked = r.embarked := by
  unfold imputeRec
  cases hage : r.age with
  | some a => rw [foldl_imputeStep_some src r a hage]; exact ⟨rfl, rfl⟩
  | none =>
    rw [foldl_imputeStep_none src r hage]
    split <;> exact ⟨rfl, rfl⟩

/-- A record with a missing age whose group has non-missing reference
ages receives a present age from the imputation. -/
theorem imputeRec_fills (src : List Rec) (r : Rec) (ha : r.age = none)
    (hne : groupAges src r.sex r.pclass r.title ≠ []) :
    ∃ m, (imputeRec src r).age = some m := by
  obtain ⟨x, hx, hxs, hxp, hxt, htne⟩ := groupAges_witness src _ _ _ hne
  have hmem : (r.sex, r.pclass, r.title) ∈ comboList src := by
    have h2 := combo_mem_of_src src x hx
    rwa [hxs, hxp, hxt] at h2
  obtain ⟨m, hm⟩ := medianOpt_isSome _ hne
  refine ⟨m, ?_⟩
  unfold imputeRec
  rw [foldl_imputeStep_none src r ha, if_pos ⟨hmem, htne⟩]
  show guessAge src r.sex r.pclass r.title = some m
  unfold guessAge
  exact hm

/-- The age grouping changes no field but the age group. -/
theorem ageGroupRec_fields (r : Rec) :
    (ageGroupRec r).age = r.age ∧ (ageGroupRec r).fare = r.fare ∧
      (ageGroupRec r).embarked = r.embarked := by
  unfold ageGroupRec
  dsimp only
  split <;> split <;> split <;> exact ⟨rfl, rfl, rfl⟩

/-- The embarkation fill leaves a present port, touching nothing else. -/
theorem fillEmbRec_fields (p : String) (r : Rec) :
    (fillEmbRec p r).age = r.age ∧ (fillEmbRec p r).fare = r.fare ∧
      (fillEmbRec p r).embarked ≠ none := by
  unfold fillEmbRec
  split
  · exact ⟨rfl, rfl, Option.some_ne_none p⟩
  · next h => exact ⟨rfl, rfl, h⟩

/-- The fare fill with a present median leaves a present fare, touching
nothing else. -/
theorem fareRec_fields (m : ℚ) (r : Rec) :
    (fareRec (some m) r).age = r.age ∧ (fareRec (some m) r).embarked = r.embarked ∧
      (fareRec (some m) r).fare ≠ none := by
  unfold fareRec
  split
  · exact ⟨rfl, rfl, Option.some_ne_none m⟩
  · next h => exact ⟨rfl, rfl, h⟩

/-- The is-alone derivation changes no field but the flag. -/
theorem aloneRec_fields (r : Rec) :
    (aloneRec r).age = r.age ∧ (aloneRec r).fare = r.fare ∧
      (aloneRec r).embarked = r.embarked :=
  ⟨rfl, rfl, rfl⟩

/-- C3 (amended).  The three imputation functions only read the
reference, but `update_features` does modify it in exactly one way: it
derives the `Title` column on it (needed because the age imputation
groups the reference by title); every other field of every reference
record is unchanged. -/
theorem update_features_ref_effect (src dst src1 out : List Rec) (i : Nat) (r : Rec)
    (h : update_features src dst = some (src1, out)) (hr : src[i]? = some r) :
    src1[i]? = some { r with title := (extractTitle r.name).map normTitle } := by
  obtain ⟨hsrc, -⟩ := update_features_eq src dst src1 out h
  rw [hsrc, add_title_eq_map, List.getElem?_map, hr, Option.map_some']
  rfl

/-- C5 (amended).  After the imputation stages of `update_features`, a
record of the wrangled target has no missing age, fare or embarkation
port — provided every target record with a missing age belongs to a
(sex, class, title) group with at least one non-missing reference age,
and the reference has a non-missing fare. -/
theorem imputation_fills_spec (src dst src1 out : List Rec) (i : Nat) (r2 : Rec)
    (h : update_features src dst = some (src1, out))
    (hage : ∀ r ∈ add_title dst, r.age = none →
      groupAges (add_title src) r.sex r.pclass r.title ≠ [])
    (hfare : (add_title src).filterMap (fun x => x.fare) ≠ [])
    (hr : out[i]? = some r2) :
    r2.age ≠ none ∧ r2.fare ≠ none ∧ r2.embarked ≠ none := by
  obtain ⟨hsrc, p, hp, hout⟩ := update_features_eq src dst src1 out h
  rw [hout, List.getElem?_map] at hr
  obtain ⟨r0, hr0, hw⟩ := Option.map_eq_some'.mp hr
  obtain ⟨m, hmed⟩ := medianOpt_isSome _ hfare
  have hr1mem : titleRec r0 ∈ add_title dst := by
    rw [add_title_eq_map]
    exact List.mem_map_of_mem _ (List.getElem?_mem hr0)
  -- the age is present after the imputation stage
  have hage3 : (imputeRec (add_title src) (titleRec r0)).age ≠ none := by
    cases ha1 : (titleRec r0).age with
    | some a =>
      rw [show imputeRec (add_title src) (titleRec r0) = titleRec r0 from
        foldl_imputeStep_some _ _ a ha1 _]
      rw [ha1]
      exact Option.some_ne_none a
    | none =>
      obtain ⟨m2, hm2⟩ := imputeRec_fills _ _ ha1 (hage _ hr1mem ha1)
      rw [hm2]
      exact Option.some_ne_none m2
  subst hw
  unfold wrangleRec
  rw [hsrc] at *
  constructor
  · -- age survives grouping, filling and the flag derivation
    rw [(aloneRec_fields _).1, hmed, (fareRec_fields m _).1, (fillEmbRec_fields p _).1,
      (ageGroupRec_fields _).1]
    exact hage3
  constructor
  · -- the fare is present after the fare fill
    rw [(aloneRec_fields _).2.1, hmed]
    exact (fareRec_fields m _).2.2
  · -- the port is present after the embarkation fill
    rw [(aloneRec_fields _).2.2, hmed, (fareRec_fields m _).2.1]
    exact (fillEmbRec_fields p _).2.2

/-! ## Helper lemmas: title extraction and normalization -/

/-- Dropping an alphabetic prefix never lengthens a list. -/
theorem length_dropWhileAlpha_le (l : List Char) :
    (List.dropWhile Char.isAlpha l).length ≤ l.length := by
  induction l with
  | nil => simp [List.dropWhile]
  | cons a as ih =>
    simp only [List.dropWhile]
    split
    · exact Nat.le_trans ih (Nat.le_succ _)
    · simp

/-- Behaviour of the regex scanner while a non-empty alphabetic run is
open: it extends the run to its maximal length, succeeds if a period
follows, and otherwise restarts after the blocking character. -/
theorem extractTok_run (cs : List Char) :
    ∀ acc : List Char, acc ≠ [] →
      extractTok cs acc =
        match cs.dropWhile Char.isAlpha with
        | [] => none
        | d :: rest =>
            if d = '.' then some (acc ++ cs.takeWhile Char.isAlpha) else extractTok rest [] := by
  induction cs with
  | nil =>
    intro acc hacc
    simp [extractTok, List.dropWhile]
  | cons a cs2 ih =>
    intro acc hacc
    by_cases hA : a.isAlpha
    · rw [show extractTok (a :: cs2) acc = extractTok cs2 (acc ++ [a]) by
        simp [extractTok, hA]]
      rw [ih (acc ++ [a]) (by simp)]
      rw [List.dropWhile_cons_of_pos hA, List.takeWhile_cons_of_pos hA]
      cases hdw : cs2.dropWhile Char.isAlpha with
      | nil => rfl
      | cons d rest =>
        by_cases hd : d = '.'
        · simp [hd, List.append_assoc]
        · simp [hd]
    · have hstep : extractTok (a :: cs2) acc = if a = '.' then some acc else extractTok cs2 [] := by
        simp [extractTok, hA, hacc]
      rw [List.dropWhile_cons_of_neg hA]
      by_cases hd : a = '.'
      · rw [hstep, if_pos hd]
        simp [hd, List.takeWhile_cons_of_neg hA]
      · rw [hstep, if_neg hd]
        simp [hd]

/-- The source's regex scanner extracts exactly the specification's
token: the first maximal alphabetic run immediately preceding a
period. -/
theorem extractTok_eq_spec : ∀ (n : Nat) (cs : List Char), cs.length ≤ n →
    extractTok cs [] = specExtract cs := by
  intro n
  induction n with
  | zero =>
    intro cs hcs
    rw [List.length_eq_zero.mp (Nat.le_zero.mp hcs)]
    simp [extractTok, specExtract]
  | succ n ih =>
    intro cs hcs
    cases cs with
    | nil => simp [extractTok, specExtract]
    | cons c cs2 =>
      by_cases hA : c.isAlpha
      · rw [show extractTok (c :: cs2) [] = extractTok cs2 [c] by simp [extractTok, hA]]
        rw [extractTok_run cs2 [c] (by simp)]
        rw [specExtract]
        simp only [hA, if_true, List.dropWhile_cons_of_pos hA, List.takeWhile_cons_of_pos hA]
        cases hdw : cs2.dropWhile Char.isAlpha with
        | nil => simp [specExtract]
        | cons d rest =>
          by_cases hd : d = '.'
          · simp [hd]
          · simp only [hd, ite_false, List.head?_cons, List.tail_cons, Option.some.injEq]
            have hrest : rest.length ≤ n := by
              have h2 := length_dropWhileAlpha_le cs2
              rw [hdw] at h2
              simp only [List.length_cons] at h2 hcs
              omega
            exact ih rest hrest
      · rw [show extractTok (c :: cs2) [] = extractTok cs2 [] by
          simp [extractTok, hA]]
        rw [show specExtract (c :: cs2) = specExtract cs2 by rw [specExtract]; simp [hA]]
        exact ih cs2 (by simp at hcs; omega)

/-- The source's chain of `replace` calls computes exactly the
specification's single normalization mapping. -/
theorem normTitle_eq_spec (t : String) : normTitle t = specNormalize t := by
  unfold normTitle specNormalize
  dsimp only
  split_ifs <;> simp_all [rareTitles]

/-- C8.  Title derivation: every record's title becomes the first
alphabetic token of its name immediately preceding a period, normalized
by the fixed mapping (rare list to "Rare", Mlle and Ms to "Miss", Mme to
"Mrs", everything else verbatim); stated against the spec-side extraction
and normalization, proved equal to the source's regex scan and chain of
replaces. -/
theorem add_title_spec (df : List Rec) (i : Nat) (r : Rec) (hr : df[i]? = some r) :
    (add_title df)[i]? =
      some { r with title :=
        (specExtract r.name.toList).map (fun cs => specNormalize (String.mk cs)) } := by
  rw [add_title_eq_map, List.getElem?_map, hr, Option.map_some']
  show some { r with title := (extractTitle r.name).map normTitle } = _
  unfold extractTitle
  rw [extractTok_eq_spec r.name.toList.length _ (le_refl _)]
  cases hx : specExtract r.name.toList with
  | none => rfl
  | some cs =>
    simp only [Option.map_some']
    rw [normTitle_eq_spec]

/-! ## Helper lemmas: one-hot encoding -/

/-- Summing a value's indicator over a duplicate-free level list counts
its membership. -/
theorem sum_indicator_nodup (x : String) (l : List String) (hnd : l.Nodup) :
    (l.map (fun lv => if (some x : Option String) = some lv then 1 else 0)).sum =
      if x ∈ l then 1 else 0 := by
  induction l with
  | nil => simp
  | cons a rest ih =>
    simp only [List.nodup_cons] at hnd
    simp only [List.map_cons, List.sum_cons, ih hnd.2]
    by_cases hxa : x = a
    · subst hxa
      simp [hnd.1]
    · simp [hxa, List.mem_cons]

/-- C7.  One-hot encoding: a categorical column with N observed levels
yields exactly N − 1 indicator columns, and for every record holding a
present value the indicator sum plus the implicit (dropped first) level
equals one — exactly one level holds. -/
theorem onehot_spec (vals : List (Option String)) (col : String) (x : String)
    (hx : some x ∈ vals) :
    (dummyColsFor col (observedLevels vals)).length = (observedLevels vals).length - 1 ∧
    (indicatorRow (observedLevels vals) (some x)).sum +
      (if (observedLevels vals).head? = some x then 1 else 0) = 1 := by
  constructor
  · simp [dummyColsFor]
  · have hnd : (observedLevels vals).Nodup := nodup_sortLt _ _ (nodup_uniq _)
    have hmem : x ∈ observedLevels vals := by
      unfold observedLevels
      rw [mem_sortLt, mem_uniq]
      exact List.mem_filterMap.mpr ⟨some x, hx, rfl⟩
    cases hlv : observedLevels vals with
    | nil => rw [hlv] at hmem; simp at hmem
    | cons a rest =>
      rw [hlv] at hnd hmem
      simp only [List.nodup_cons] at hnd
      have hdrop : indicatorRow (a :: rest) (some x) =
          rest.map (fun lv => if (some x : Option String) = some lv then 1 else 0) := rfl
      rw [hdrop, sum_indicator_nodup x rest hnd.2, List.head?_cons]
      rcases List.mem_cons.mp hmem with rfl | hxr
      · simp [hnd.1]
      · have hax : a ≠ x := fun hc => hnd.1 (hc ▸ hxr)
        simp [hxr, hax]

/-! ## Helper lemmas: evaluation and prediction -/

/-- C4 (amended).  A fit failure of a candidate propagates out of
`evaluate_models` with the failure's own cause: the whole evaluation
aborts with that error, and no ranking (hence no score for any other
candidate) is produced. -/
theorem evaluate_models_abort (name : String) (m : Classifier)
    (rest : List (String × Classifier)) (nfold : Nat)
    (splits : List (List Nat × List Nat)) (x : List (List ℚ)) (y : List Nat) (e : String)
    (h : evalOneModel m nfold splits x y = Except.error e) :
    evaluate_models ((name, m) :: rest) nfold splits x y = Except.error e := by
  unfold evaluate_models modelScores
  rw [h]

/-- C6 (amended).  The final stage fits the fixed "Random forest"
candidate — the dictionary lookup, not the cross-validation winner — on
the entire reduced training matrix, and pairs one prediction per
evaluation record with that record's identifier. -/
theorem final_prediction_spec (svm rf : Classifier) (trainX : List (List ℚ))
    (trainY : List Nat) (testX : List (List ℚ)) (ids : List Nat)
    (pred : List (List ℚ) → List Nat)
    (hfit : rf.fit trainX trainY = Except.ok pred)
    (hlen : (pred testX).length = testX.length) (hids : ids.length = testX.length) :
    final_model svm rf = some rf ∧
    write_submission rf trainX trainY testX ids = Except.ok (ids.zip (pred testX)) ∧
    (ids.zip (pred testX)).length = testX.length := by
  refine ⟨rfl, ?_, ?_⟩
  · unfold write_submission
    rw [hfit]
  · rw [List.length_zip, hlen, hids, Nat.min_self]

/-! ## Concrete evaluations: counterexamples and witnesses -/

/-- C2.  Evaluating the pipeline on a training set whose titles are
{Mr, Mrs} (and both sexes) and a test set whose only title is Master
yields different encoded column sets for the two datasets: the source
one-hot encodes each dataset with its own observed levels. -/
theorem onehot_columns_mismatch :
    pipeline_columns W2train W2test = some (W2trainCols, W2testCols) ∧
    W2trainCols ≠ W2testCols := by decide

/-- C3 counterexample: `update_features` returns with the reference
dataset changed — the call succeeds and the post-call reference differs
from the original (it gained a `Title` column). -/
theorem update_features_mutates_ref :
    (update_features W3src W3dst).map (fun pr => pr.1) = some W3src1 ∧
    W3src1 ≠ W3src := by decide

/-- Witness for the amended C3 at a concrete reference record. -/
theorem update_features_ref_effect_witness :
    update_features W3src W3dst = some (W3src1, W3out) ∧
    W3src1[0]? = some { W3rA with title := some "Mr" } := by
  constructor
  · decide
  · rw [update_features_ref_effect W3src W3dst W3src1 W3out 0 W3rA (by decide) (by decide)]
    decide

/-- Witness for C1 at a concrete reference and target: the present age
25 is untouched, and the missing age becomes the group median 30. -/
theorem impute_age_spec_witness :
    (impute_age W1src W1dst)[1]? = some W1r1 ∧
    medianOpt (groupAges W1src W1r0.sex W1r0.pclass W1r0.title) = some 30 ∧
    (impute_age W1src W1dst)[0]? = some { W1r0 with age := some 30 } := by
  have h0 := impute_age_spec W1src W1dst 0 W1r0 (by decide)
  have h1 := impute_age_spec W1src W1dst 1 W1r1 (by decide)
  have h30 : medianOpt (groupAges W1src W1r0.sex W1r0.pclass W1r0.title) = some 30 := by
    decide
  refine ⟨h1.1 25 (by decide), h30, ?_⟩
  obtain ⟨m, hm, hres⟩ := h0.2 (by decide) (by decide)
  have hm30 : m = 30 := Option.some.inj (hm.symm.trans h30)
  rw [hm30] at hres
  exact hres

/-- C4 counterexample: with the first candidate failing to fit and the
second fitting fine, the whole evaluation returns only the bare failure
cause — no candidate identity, no score for the healthy candidate. -/
theorem evaluate_models_abort_cex :
    evaluate_models [("SVM", failClf), ("Random forest", okClf)] 1 oneSplit twoRowsX E4y =
      Except.error "numeric instability" := by rfl

/-- Witness for the amended C4 at a concrete failing classifier. -/
theorem evaluate_models_abort_witness :
    evalOneModel failClf 1 oneSplit twoRowsX E4y = Except.error "numeric instability" ∧
    evaluate_models [("SVM", failClf), ("Random forest", okClf)] 1 oneSplit twoRowsX E4y =
      Except.error "numeric instability" :=
  ⟨by rfl, evaluate_models_abort "SVM" failClf [("Random forest", okClf)] 1 oneSplit
    twoRowsX E4y "numeric instability" (by rfl)⟩

/-- Witness for the amended C5 at a concrete pair of datasets: the
wrangled target record has age, fare and port filled. -/
theorem imputation_fills_witness :
    update_features W5src W5dst = some (W5src1, W5out) ∧ W5out[0]? = some W5r2 ∧
    (W5r2.age ≠ none ∧ W5r2.fare ≠ none ∧ W5r2.embarked ≠ none) :=
  ⟨by decide, by decide,
    imputation_fills_spec W5src W5dst W5src1 W5out 0 W5r2 (by decide) (by decide) (by decide)
      (by decide)⟩

/-- C6 counterexample: SVM ranks first by mean cross-validated accuracy
(1 against 0), yet the final model key is still "Random forest". -/
theorem final_model_not_best :
    evaluate_models (gen_models svmGood rfBad) 1 oneSplit twoRowsX E6y =
      Except.ok [("SVM", 1), ("Random forest", 0)] ∧
    final_model_name ≠ "SVM" := by
  constructor
  · have hsvm : evalOneModel svmGood 1 oneSplit twoRowsX E6y = Except.ok 1 := by
      norm_num [evalOneModel, foldScores, svmGood, predOne, scoreOf, selectRows,
        countAgree, oneSplit, twoRowsX, E6y]
      decide
    have hrf : evalOneModel rfBad 1 oneSplit twoRowsX E6y = Except.ok 0 := by
      norm_num [evalOneModel, foldScores, rfBad, predZero, scoreOf, selectRows,
        countAgree, oneSplit, twoRowsX, E6y]
    simp only [evaluate_models, modelScores, gen_models, hsvm, hrf]
    norm_num [sortDesc, insertDesc]
  · decide

/-- Witness for the amended C6 at a concrete classifier pair. -/
theorem final_prediction_spec_witness :
    final_model svmGood rfBad = some rfBad ∧
    write_submission rfBad twoRowsX E6y E6testX E6ids =
      Except.ok (E6ids.zip (predZero E6testX)) ∧
    (E6ids.zip (predZero E6testX)).length = E6testX.length :=
  final_prediction_spec svmGood rfBad twoRowsX E6y E6testX E6ids predZero rfl (by decide)
    (by decide)

/-- Witness for C7 at a concrete column with levels a and b. -/
theorem onehot_spec_witness :
    (dummyColsFor "Title" (observedLevels W7vals)).length =
      (observedLevels W7vals).length - 1 ∧
    (indicatorRow (observedLevels W7vals) (some "b")).sum +
      (if (observedLevels W7vals).head? = some "b" then 1 else 0) = 1 :=
  onehot_spec W7vals "Title" "b" (by decide)

/-- Witness for C8 at a concrete name: "Braund, Mr. Owen" gets the
title Mr. -/
theorem add_title_spec_witness :
    (add_title W3src)[0]? = some { W3rA with title := some "Mr" } := by
  rw [add_title_spec W3src 0 W3rA (by decide)]
  rw [← extractTok_eq_spec W3rA.name.toList.length _ (le_refl _)]
  decide

/-- Witness for C9 at a concrete 29-year-old record: the bucket is
"adults". -/
theorem add_age_group_spec_witness :
    W9df[0]? = some W9r ∧ W9r.age = some 29 ∧
    (add_age_group W9df)[0]? = some { W9r with ageGroup := some "adults (>16,<= 50)" } := by
  refine ⟨by decide, by decide, ?_⟩
  obtain ⟨g, hg, -, -, hadult, -⟩ := add_age_group_spec W9df 0 W9r 29 (by decide) (by decide)
  have hgeq : g = "adults (>16,<= 50)" := hadult.mpr ⟨by decide, by decide⟩
  rw [hgeq] at hg
  exact hg

/-- C5 counterexample: on a target whose (sex, class, title) group is
absent from the reference, the wrangling pipeline completes but leaves
the target's age missing. -/
theorem imputation_leaves_missing :
    (update_features W10src W10dst).map (fun pr => pr.2) = some W10out ∧
    W10out.map (fun r => r.age) = [none] := by decide

/-- Witness for C10 at a concrete target whose group is absent from the
reference: the record is untouched, its age and bucket stay missing. -/
theorem impute_gap_witness :
    groupAges W10src W10r.sex W10r.pclass W10r.title = [] ∧
    (add_age_group (impute_age W10src W10dst))[0]? = some W10r := by
  refine ⟨by decide, ?_⟩
  obtain ⟨r2, hres, heq, -, -⟩ :=
    impute_gap_spec W10src W10dst 0 W10r (by decide) (by decide) (by decide) (by decide)
  rw [heq] at hres
  exact hres
